import Mathlib

/-!
Shallow embedding of the offline-first synchronization core of the xpens
personal-finance tracker (TypeScript/React Native).

Source modules embedded here:
* `src/lib/types.ts` — the `Transaction`, `Account`, `Category` data model;
* `src/lib/supabase-sync.ts` — the Merge Engine `mergeTransactions`;
* the storage module (pending-delete queue `getPendingDeletes` /
  `addPendingDelete` / `clearPendingDeletes`, `saveTransaction`,
  `deleteTransaction`, `setTransactions`, `computeAccountBalance`);
* the `AppContext` orchestrator (`performSync`, `addTransaction`,
  `updateTransaction`, `removeTransaction`).

Modelling conventions: JavaScript numbers are embedded as `Int` (the code
performs only exact +,− on amounts, and every property proved here is
ring-generic); timestamps are strings ordered lexicographically, wrapped
in `Option` so that a record whose `updatedAt` is missing at runtime
(`undefined`) is representable; remote transport is failable I/O, embedded
as an oracle environment saying whether each call resolves or rejects,
plus an event trace recording which transport calls were issued.
-/

namespace Xpens

/-- `'expense' | 'income' | 'transfer'` from `src/lib/types.ts`. -/
inductive TransactionType
  | expense
  | income
  | transfer
deriving DecidableEq, Repr, BEq

/-- The `Transaction` interface of `src/lib/types.ts`.  `updatedAt` is typed
`string` in TS but may be `undefined` at runtime (the spec's "missing
timestamp" anomaly), hence `Option String` here; `none` plays `undefined`. -/
structure Transaction where
  id : String
  type : TransactionType
  amount : Int
  categoryId : String := ""
  accountId : String := ""
  toAccountId : Option String := none
  date : String := ""
  note : Option String := none
  createdAt : String := ""
  updatedAt : Option String := none
deriving DecidableEq, Repr

/-- The `Account` interface of `src/lib/types.ts` (fields not used by the
sync core kept as plain strings). -/
structure Account where
  id : String
  name : String := ""
  type : String := "cash"
  initialBalance : Int
  icon : String := ""
  color : String := ""
  createdAt : String := ""
deriving DecidableEq, Repr

/-- The `Category` interface of `src/lib/types.ts` (only `id` and `name`
are read by the sync core, for display-name denormalization at push time). -/
structure Category where
  id : String
  name : String := ""
deriving DecidableEq, Repr

/-! ## Merge Engine (`src/lib/supabase-sync.ts`)

`mergeTransactions` builds a JS `Map<string, Transaction>`.  A JS `Map`
keeps insertion order and updates an existing key in place, which an
association list with in-place update models exactly. -/

/-- Association list standing for the JS `Map<string, Transaction>`. -/
abbrev TxMap := List (String × Transaction)

/-- `map.get(k)`: first binding of `k`, if any. -/
def mapGet : TxMap → String → Option Transaction
  | [], _ => none
  | (k', v) :: rest, k => if k' = k then some v else mapGet rest k

/-- `map.set(k, v)`: update the existing binding of `k` in place, else
append a new binding (JS `Map` insertion-order semantics). -/
def mapSet : TxMap → String → Transaction → TxMap
  | [], k, v => [(k, v)]
  | (k', v') :: rest, k, v =>
      if k' = k then (k, v) :: rest else (k', v') :: mapSet rest k v

/-- JavaScript `a >= b` on two possibly-`undefined` strings: when both are
strings the comparison is lexicographic on the character sequence (stated
over `String.toList`, which is exactly Lean's `String` order by
`String.le_iff_toList_le`); when either side is `undefined` the relational
comparison is over `NaN` and yields `false`. -/
def jsGE : Option String → Option String → Bool
  | some a, some b => decide (b.toList ≤ a.toList)
  | _, _ => false

/-- Loop `for (const tx of local) map.set(tx.id, tx)`. -/
def buildMap (txs : List Transaction) : TxMap :=
  txs.foldl (fun m tx => mapSet m tx.id tx) []

/-- Body of the remote loop:
`const existing = map.get(tx.id);`
`if (!existing || tx.updatedAt >= existing.updatedAt) map.set(tx.id, tx);`. -/
def mergeStep (m : TxMap) (tx : Transaction) : TxMap :=
  match mapGet m tx.id with
  | none => mapSet m tx.id tx
  | some existing =>
      if jsGE tx.updatedAt existing.updatedAt then mapSet m tx.id tx else m

/-- Loop `for (const tx of remote) { ... }`. -/
def mergeInto (m : TxMap) (remote : List Transaction) : TxMap :=
  remote.foldl mergeStep m

/-- `mergeTransactions(local, remote)` from `src/lib/supabase-sync.ts`:
seed a map with every local record, fold the remote records in with the
last-writer-wins rule, return `Array.from(map.values())`. -/
def mergeTransactions (localTx remote : List Transaction) : List Transaction :=
  (mergeInto (buildMap localTx) remote).map Prod.snd

/-! ## Local Store (storage module)

The pending-delete queue is stored under one AsyncStorage key as a JSON
list; an absent key reads as `[]`.  The stored cell is therefore an
`Option (List String)`, `none` = key absent. -/

/-- `getPendingDeletes()`: parse the stored JSON list, `[]` if absent. -/
def getPendingDeletes (cell : Option (List String)) : List String :=
  cell.getD []

/-- `addPendingDelete(id)`: append `id` unless already present (no write at
all when present). -/
def addPendingDelete (cell : Option (List String)) (id : String) :
    Option (List String) :=
  let ids := getPendingDeletes cell
  if id ∈ ids then cell else some (ids ++ [id])

/-- `clearPendingDeletes()`: remove the stored key. -/
def clearPendingDeletes (_cell : Option (List String)) : Option (List String) :=
  none

/-- `saveTransaction(tx)`: upsert by id into the stored list. -/
def saveTransaction (transactions : List Transaction) (tx : Transaction) :
    List Transaction :=
  if (transactions.findIdx? (fun t => t.id == tx.id)).isSome then
    transactions.map (fun t => if t.id == tx.id then tx else t)
  else
    transactions ++ [tx]

/-- `deleteTransaction(id)`: drop every stored record with that id. -/
def deleteTransaction (transactions : List Transaction) (id : String) :
    List Transaction :=
  transactions.filter (fun t => t.id != id)

/-- `computeAccountBalance`'s loop body (storage module): expense and
income affect the source account; a transfer subtracts from its source
account and adds to its destination account. -/
def applyTxToBalance (account : Account) (balance : Int) (tx : Transaction) :
    Int :=
  if tx.type = TransactionType.expense ∧ tx.accountId = account.id then
    balance - tx.amount
  else if tx.type = TransactionType.income ∧ tx.accountId = account.id then
    balance + tx.amount
  else if tx.type = TransactionType.transfer then
    let b1 := if tx.accountId = account.id then balance - tx.amount else balance
    let b2 := if tx.toAccountId = some account.id then b1 + tx.amount else b1
    b2
  else
    balance

/-- `computeAccountBalance(account, transactions)` from the storage module:
fold the loop body over the list starting from `account.initialBalance`. -/
def computeAccountBalance (account : Account) (transactions : List Transaction) :
    Int :=
  transactions.foldl (applyTxToBalance account) account.initialBalance

/-! ## Sync Orchestrator (`AppContext`) -/

/-- Snapshot of the durable Local Store. -/
structure LocalState where
  transactions : List Transaction
  accounts : List Account
  categories : List Category
  pendingDeletes : Option (List String)
deriving DecidableEq, Repr

/-- Oracle for one sync pass: whether the (spec-modelled) batch remote
delete resolves, and what the pull returns.  `fetchRemoteTransactions`
never rejects in the source — it returns `[]` on failure — so a failed
pull is `remoteTx = []`. -/
structure SyncEnv where
  batchDeleteOk : Bool
  remoteTx : List Transaction
deriving Repr

/-- Observable outcome of `performSync`. -/
structure SyncOutcome where
  state : LocalState
  /-- ids passed to the batch remote delete, when one was issued. -/
  batchDeleteAttempted : Option (List String)
  pulled : Bool
  persisted : Bool
deriving DecidableEq, Repr

/-- `performSync` from `AppContext`: guard against re-entry, push the local
transactions (the push catches its own errors and has no local effect),
flush the pending-delete queue — `deleteRemoteTransactionsBatch` is
modelled from the spec as a failable batch delete whose rejection aborts
the pass before `clearPendingDeletes` runs — then pull, merge and persist.

`deleteRemoteTransactionsBatch` itself: Modelled from the spec: its body
is not among the provided sources (only its import and call site are); the
spec says it deletes the given ids remotely and, like every Remote
Transport call, may fail, and the call site's own comment says a throw
stops the pass with the queue intact.  `env.batchDeleteOk` decides whether
the call resolves. -/
def performSync (env : SyncEnv) (isSyncing : Bool) (s : LocalState) :
    SyncOutcome :=
  if isSyncing then
    { state := s, batchDeleteAttempted := none, pulled := false, persisted := false }
  else
    let localTx := s.transactions
    -- 1. pushTransactionsBatch(localTx, ...): catches errors, no local effect
    -- 2. flush pending deletes
    let pendingDeletes := getPendingDeletes s.pendingDeletes
    if pendingDeletes.length > 0 then
      if env.batchDeleteOk then
        let s1 : LocalState :=
          { s with pendingDeletes := clearPendingDeletes s.pendingDeletes }
        -- 3. fetch remote + merge + save
        let remoteTx := env.remoteTx
        let merged := mergeTransactions localTx remoteTx
        { state := { s1 with transactions := merged },
          batchDeleteAttempted := some pendingDeletes,
          pulled := true, persisted := true }
      else
        -- the batch delete threw: the pass aborts here (the exception
        -- propagates out through the try/finally that releases the guard)
        { state := s, batchDeleteAttempted := some pendingDeletes,
          pulled := false, persisted := false }
    else
      let remoteTx := env.remoteTx
      let merged := mergeTransactions localTx remoteTx
      { state := { s with transactions := merged },
        batchDeleteAttempted := none,
        pulled := true, persisted := true }

/-- Observable events of a mutation entry point, in issue order.  The
`call*` constructors are the Remote Transport invocations. -/
inductive Ev
  | localSave (id : String)
  | localDelete (id : String)
  | enqueuePending (id : String)
  | clearQueue
  | callPush (id : String)
  | callRemoteDelete (id : String)
deriving DecidableEq, Repr

/-- Remote Transport calls, as opposed to Local Store traffic. -/
def isRemoteCall : Ev → Bool
  | .callPush _ => true
  | .callRemoteDelete _ => true
  | _ => false

/-- `addTransaction` from `AppContext`: save locally; only when a Supabase
user id is known, fire `pushTransaction` (which catches its own errors and
has no local effect). -/
def addTransaction (sbUserId : Option String) (tx : Transaction)
    (s : LocalState) : LocalState × List Ev :=
  let s1 : LocalState := { s with transactions := saveTransaction s.transactions tx }
  match sbUserId with
  | some _ => (s1, [Ev.localSave tx.id, Ev.callPush tx.id])
  | none => (s1, [Ev.localSave tx.id])

/-- `updateTransaction` from `AppContext`: identical body to
`addTransaction` (upsert + optional push). -/
def updateTransaction (sbUserId : Option String) (tx : Transaction)
    (s : LocalState) : LocalState × List Ev :=
  let s1 : LocalState := { s with transactions := saveTransaction s.transactions tx }
  match sbUserId with
  | some _ => (s1, [Ev.localSave tx.id, Ev.callPush tx.id])
  | none => (s1, [Ev.localSave tx.id])

/-- `removeTransaction` from `AppContext`: local delete always; in guest
mode stop there.  Otherwise enqueue the id into the pending-delete queue,
then attempt the live remote delete (`deleteOk` is the oracle for whether
that promise resolves); on resolution the `.then` handler reads the queue,
filters the id out, clears the stored key and re-adds the remaining ids. -/
def removeTransaction (sbUserId : Option String) (deleteOk : Bool)
    (id : String) (s : LocalState) : LocalState × List Ev :=
  let s1 : LocalState := { s with transactions := deleteTransaction s.transactions id }
  match sbUserId with
  | none => (s1, [Ev.localDelete id])
  | some _ =>
    let s2 : LocalState := { s1 with pendingDeletes := addPendingDelete s1.pendingDeletes id }
    if deleteOk then
      let ids := getPendingDeletes s2.pendingDeletes
      let remaining := ids.filter (fun i => i != id)
      let s3 : LocalState := { s2 with pendingDeletes := clearPendingDeletes s2.pendingDeletes }
      let s4 : LocalState :=
        { s3 with pendingDeletes := remaining.foldl addPendingDelete s3.pendingDeletes }
      (s4, [Ev.localDelete id, Ev.enqueuePending id, Ev.callRemoteDelete id, Ev.clearQueue]
             ++ remaining.map Ev.enqueuePending)
    else
      (s2, [Ev.localDelete id, Ev.enqueuePending id, Ev.callRemoteDelete id])

/-- One call to a mutation entry point, with the resolution oracle for the
remote delete a `removeTransaction` fires. -/
inductive MutOp
  | addT (tx : Transaction)
  | updateT (tx : Transaction)
  | removeT (id : String) (deleteOk : Bool)
deriving Repr

/-- Dispatch one mutation entry point call. -/
def applyOp (sbUserId : Option String) (s : LocalState) : MutOp → LocalState × List Ev
  | .addT tx => addTransaction sbUserId tx s
  | .updateT tx => updateTransaction sbUserId tx s
  | .removeT id ok => removeTransaction sbUserId ok id s

/-- Run a sequence of mutation entry point calls, concatenating traces. -/
def applyOps (sbUserId : Option String) (s : LocalState) :
    List MutOp → LocalState × List Ev
  | [] => (s, [])
  | op :: rest =>
      let r1 := applyOp sbUserId s op
      let r2 := applyOps sbUserId r1.1 rest
      (r2.1, r1.2 ++ r2.2)

/-! ## Derived notions used by the statements -/

/-- Keys of the association map. -/
def mapKeys (m : TxMap) : List String :=
  m.map Prod.fst

/-- Well-formedness the merge loops maintain: every binding's value carries
its key as `id`, and keys are pairwise distinct. -/
def MapWF (m : TxMap) : Prop :=
  (∀ p ∈ m, (Prod.snd p).id = Prod.fst p) ∧ (mapKeys m).Nodup

/-- Conflict resolution applied to one remote record against the current
candidate for its id, as performed by `mergeStep`. -/
def resolve (o : Option Transaction) (tx : Transaction) : Option Transaction :=
  match o with
  | none => some tx
  | some existing =>
      if jsGE tx.updatedAt existing.updatedAt then some tx else some existing

/-- Per-transaction signed contribution to an account's balance. -/
def txEffect (account : Account) (tx : Transaction) : Int :=
  if tx.type = TransactionType.expense ∧ tx.accountId = account.id then
    -tx.amount
  else if tx.type = TransactionType.income ∧ tx.accountId = account.id then
    tx.amount
  else if tx.type = TransactionType.transfer then
    (if tx.accountId = account.id then -tx.amount else 0)
      + (if tx.toAccountId = some account.id then tx.amount else 0)
  else 0

/-- Sum of the `amount` fields of a list of transactions. -/
def sumAmounts (txs : List Transaction) : Int :=
  (txs.map Transaction.amount).sum

/-- Income transactions of the given account. -/
def isIncomeOf (account : Account) (t : Transaction) : Bool :=
  decide (t.type = TransactionType.income ∧ t.accountId = account.id)

/-- Expense transactions of the given account. -/
def isExpenseOf (account : Account) (t : Transaction) : Bool :=
  decide (t.type = TransactionType.expense ∧ t.accountId = account.id)

/-- Transfers out of the given account. -/
def isTransferOutOf (account : Account) (t : Transaction) : Bool :=
  decide (t.type = TransactionType.transfer ∧ t.accountId = account.id)

/-- Transfers into the given account. -/
def isTransferInOf (account : Account) (t : Transaction) : Bool :=
  decide (t.type = TransactionType.transfer ∧ t.toAccountId = some account.id)

/-! ## Concrete records used by witnesses and counterexamples -/

/-- Newer-stamped record with id `"a"`. -/
def dupNew : Transaction :=
  { id := "a", type := TransactionType.expense, amount := 5,
    updatedAt := some "2" }

/-- Older-stamped record with the same id `"a"` as `dupNew`. -/
def dupOld : Transaction :=
  { id := "a", type := TransactionType.expense, amount := 3,
    updatedAt := some "1" }

/-- Latest-stamped of three same-id records. -/
def tsThree : Transaction :=
  { id := "a", type := TransactionType.expense, amount := 30,
    updatedAt := some "3" }

/-- Middle-stamped of three same-id records. -/
def tsTwo : Transaction :=
  { id := "a", type := TransactionType.expense, amount := 20,
    updatedAt := some "2" }

/-- Oldest-stamped of three same-id records. -/
def tsOne : Transaction :=
  { id := "a", type := TransactionType.expense, amount := 10,
    updatedAt := some "1" }

/-- Record without a runtime timestamp. -/
def noStamp : Transaction :=
  { id := "a", type := TransactionType.expense, amount := 1,
    updatedAt := none }

/-- Record with a timestamp and the same id as `noStamp`. -/
def withStamp : Transaction :=
  { id := "a", type := TransactionType.expense, amount := 2,
    updatedAt := some "2024" }

/-- Local state used by the orchestrator witnesses: one stored transaction
and the id `"t2"` waiting in the pending-delete queue. -/
def wState : LocalState :=
  { transactions := [dupNew], accounts := [], categories := [],
    pendingDeletes := some ["t2"] }

/-- The account of concrete scenario 4 (initial balance 500). -/
def accCash : Account := { id := "acc-cash", initialBalance := 500 }

/-- The four transactions of concrete scenario 4: income 200, expense 80,
transfer-out 100, transfer-in 50 on `acc-cash`. -/
def scenarioTxs : List Transaction :=
  [ { id := "s1", type := TransactionType.income, amount := 200,
      accountId := "acc-cash" },
    { id := "s2", type := TransactionType.expense, amount := 80,
      accountId := "acc-cash" },
    { id := "s3", type := TransactionType.transfer, amount := 100,
      accountId := "acc-cash", toAccountId := some "acc-bank" },
    { id := "s4", type := TransactionType.transfer, amount := 50,
      accountId := "acc-bank", toAccountId := some "acc-cash" } ]

/-! ## Association-map lemmas -/

theorem mapGet_mapSet (m : TxMap) (k i : String) (v : Transaction) :
    mapGet (mapSet m k v) i = if k = i then some v else mapGet m i := by
  induction m with
  | nil => simp [mapSet, mapGet]
  | cons p rest ih =>
    obtain ⟨k', v'⟩ := p
    by_cases hk : k' = k
    · subst hk
      simp only [mapSet, if_pos rfl, mapGet]
      by_cases hi : k' = i <;> simp [hi]
    · simp only [mapSet, if_neg hk, mapGet]
      by_cases hi : k' = i
      · subst hi
        have hki : ¬ k = k' := fun h => hk h.symm
        simp [hki]
      · simp [hi, ih]

theorem mapKeys_mapSet (m : TxMap) (k : String) (v : Transaction) :
    mapKeys (mapSet m k v)
      = if k ∈ mapKeys m then mapKeys m else mapKeys m ++ [k] := by
  induction m with
  | nil => simp [mapSet, mapKeys]
  | cons p rest ih =>
    obtain ⟨k', v'⟩ := p
    by_cases hk : k' = k
    · subst hk
      simp [mapSet, mapKeys]
    · have hk' : ¬ k = k' := fun h => hk h.symm
      by_cases hmem : k ∈ mapKeys rest
      · have : k ∈ mapKeys ((k', v') :: rest) := by
          simp [mapKeys] at hmem ⊢
          exact Or.inr hmem
        rw [if_pos this]
        simp only [mapSet, if_neg hk, mapKeys, List.map_cons]
        rw [show List.map Prod.fst (mapSet rest k v) = mapKeys (mapSet rest k v) from rfl,
          ih, if_pos hmem]
        rfl
      · have : k ∉ mapKeys ((k', v') :: rest) := by
          simp [mapKeys] at hmem ⊢
          exact ⟨fun h => hk' h, hmem⟩
        rw [if_neg this]
        simp only [mapSet, if_neg hk, mapKeys, List.map_cons]
        rw [show List.map Prod.fst (mapSet rest k v) = mapKeys (mapSet rest k v) from rfl,
          ih, if_neg hmem]
        simp [mapKeys]

theorem mem_mapSet {m : TxMap} {k : String} {v : Transaction}
    {p : String × Transaction} (hp : p ∈ mapSet m k v) :
    p = (k, v) ∨ p ∈ m := by
  induction m with
  | nil =>
    simp [mapSet] at hp
    exact Or.inl hp
  | cons q rest ih =>
    obtain ⟨k', v'⟩ := q
    by_cases hk : k' = k
    · subst hk
      simp only [mapSet, if_pos rfl, if_true, eq_self_iff_true,
        List.mem_cons] at hp
      rcases hp with hp | hp
      · exact Or.inl hp
      · exact Or.inr (List.mem_cons_of_mem _ hp)
    · simp only [mapSet, if_neg hk, List.mem_cons] at hp
      rcases hp with hp | hp
      · exact Or.inr (by simp [hp])
      · rcases ih hp with h | h
        · exact Or.inl h
        · exact Or.inr (List.mem_cons_of_mem _ h)

theorem mapWF_mapSet {m : TxMap} (hwf : MapWF m) (k : String)
    {v : Transaction} (hv : v.id = k) : MapWF (mapSet m k v) := by
  obtain ⟨hids, hnd⟩ := hwf
  constructor
  · intro p hp
    rcases mem_mapSet hp with h | h
    · subst h; exact hv
    · exact hids p h
  · rw [mapKeys_mapSet]
    by_cases hmem : k ∈ mapKeys m
    · simpa [hmem] using hnd
    · simp only [hmem, if_false]
      simpa [List.nodup_append] using ⟨hnd, hmem⟩

theorem mapGet_eq_none_of_not_mem {m : TxMap} {i : String}
    (h : i ∉ mapKeys m) : mapGet m i = none := by
  induction m with
  | nil => simp [mapGet]
  | cons p rest ih =>
    obtain ⟨k', v'⟩ := p
    simp only [mapKeys, List.map_cons, List.mem_cons, not_or] at h
    have : ¬ k' = i := fun hh => h.1 hh.symm
    simp only [mapGet, if_neg this]
    exact ih (by simpa [mapKeys] using h.2)

theorem filter_values_eq_nil {m : TxMap} {i : String}
    (hids : ∀ p ∈ m, (Prod.snd p).id = Prod.fst p) (h : i ∉ mapKeys m) :
    (m.map Prod.snd).filter (fun t => t.id == i) = [] := by
  induction m with
  | nil => simp
  | cons p rest ih =>
    obtain ⟨k', v'⟩ := p
    simp only [mapKeys, List.map_cons, List.mem_cons, not_or] at h
    have hv' : v'.id = k' := hids _ (List.mem_cons_self _ _)
    have : (v'.id == i) = false := by
      simp [hv']
      exact fun hh => h.1 hh.symm
    simp only [List.map_cons, List.filter_cons, this, Bool.false_eq_true,
      if_false]
    exact ih (fun q hq => hids q (List.mem_cons_of_mem _ hq))
      (by simpa [mapKeys] using h.2)

theorem jsGE_some_some (a b : String) :
    jsGE (some a) (some b) = decide (b ≤ a) :=
  decide_eq_decide.mpr (Iff.symm String.le_iff_toList_le)

theorem mapGet_buildMap_loop (l : List Transaction) (m : TxMap) (i : String) :
    mapGet (l.foldl (fun m tx => mapSet m tx.id tx) m) i
      = (l.filter (fun t => t.id == i)).foldl (fun _ tx => some tx)
          (mapGet m i) := by
  induction l generalizing m with
  | nil => simp
  | cons tx rest ih =>
    simp only [List.foldl_cons, List.filter_cons]
    by_cases h : tx.id = i
    · have hb : (tx.id == i) = true := by simp [h]
      rw [hb, if_pos rfl, List.foldl_cons, ih, mapGet_mapSet]
      simp [h]
    · have hb : (tx.id == i) = false := by simp [h]
      rw [hb]
      simp only [Bool.false_eq_true, if_false]
      rw [ih, mapGet_mapSet]
      simp [h]

theorem mapGet_buildMap (l : List Transaction) (i : String) :
    mapGet (buildMap l) i
      = (l.filter (fun t => t.id == i)).foldl (fun _ tx => some tx) none := by
  have := mapGet_buildMap_loop l [] i
  simpa [buildMap, mapGet] using this

theorem mapGet_mergeStep (m : TxMap) (tx : Transaction) (i : String) :
    mapGet (mergeStep m tx)
      i = if tx.id = i then resolve (mapGet m i) tx else mapGet m i := by
  unfold mergeStep
  by_cases h : tx.id = i
  · subst h
    cases hg : mapGet m tx.id with
    | none => simp [resolve, hg, mapGet_mapSet]
    | some ex =>
      simp only [hg, resolve]
      by_cases hj : jsGE tx.updatedAt ex.updatedAt = true
      · simp [hj, mapGet_mapSet]
      · simp only [hj, Bool.false_eq_true, if_false]
        exact hg
  · cases hg : mapGet m tx.id with
    | none => simp [mapGet_mapSet, h]
    | some ex =>
      by_cases hj : jsGE tx.updatedAt ex.updatedAt = true
      · simp [hj, mapGet_mapSet, h]
      · simp [hj, h]

theorem mapGet_mergeInto (remote : List Transaction) (m : TxMap) (i : String) :
    mapGet (mergeInto m remote) i
      = (remote.filter (fun t => t.id == i)).foldl resolve (mapGet m i) := by
  induction remote generalizing m with
  | nil => simp [mergeInto]
  | cons tx rest ih =>
    simp only [mergeInto, List.foldl_cons, List.filter_cons]
    have hstep : List.foldl mergeStep (mergeStep m tx) rest
        = mergeInto (mergeStep m tx) rest := rfl
    by_cases h : tx.id = i
    · have hb : (tx.id == i) = true := by simp [h]
      rw [hb, if_pos rfl, List.foldl_cons, hstep, ih, mapGet_mergeStep]
      simp [h]
    · have hb : (tx.id == i) = false := by simp [h]
      rw [hb]
      simp only [Bool.false_eq_true, if_false]
      rw [hstep, ih, mapGet_mergeStep]
      simp [h]

theorem mapWF_nil : MapWF [] := by
  constructor
  · intro p hp; simp at hp
  · simp [mapKeys]

theorem mapWF_buildMap_loop (l : List Transaction) {m : TxMap}
    (hwf : MapWF m) : MapWF (l.foldl (fun m tx => mapSet m tx.id tx) m) := by
  induction l generalizing m with
  | nil => simpa using hwf
  | cons tx rest ih =>
    simp only [List.foldl_cons]
    exact ih (mapWF_mapSet hwf tx.id rfl)

theorem mapWF_buildMap (l : List Transaction) : MapWF (buildMap l) :=
  mapWF_buildMap_loop l mapWF_nil

theorem mapWF_mergeStep {m : TxMap} (hwf : MapWF m) (tx : Transaction) :
    MapWF (mergeStep m tx) := by
  unfold mergeStep
  cases mapGet m tx.id with
  | none => exact mapWF_mapSet hwf tx.id rfl
  | some ex =>
    by_cases hj : jsGE tx.updatedAt ex.updatedAt = true
    · simpa [hj] using mapWF_mapSet hwf tx.id rfl
    · simpa [hj] using hwf

theorem mapWF_mergeInto (remote : List Transaction) {m : TxMap}
    (hwf : MapWF m) : MapWF (mergeInto m remote) := by
  induction remote generalizing m with
  | nil => simpa [mergeInto] using hwf
  | cons tx rest ih =>
    have : mergeInto m (tx :: rest) = mergeInto (mergeStep m tx) rest := rfl
    rw [this]
    exact ih (mapWF_mergeStep hwf tx)

theorem filter_values_eq {m : TxMap} (hwf : MapWF m) (i : String) :
    (m.map Prod.snd).filter (fun t => t.id == i) = (mapGet m i).toList := by
  obtain ⟨hids, hnd⟩ := hwf
  induction m with
  | nil => simp [mapGet]
  | cons p rest ih =>
    obtain ⟨k', v'⟩ := p
    have hv' : v'.id = k' := hids _ (List.mem_cons_self _ _)
    simp only [mapKeys, List.map_cons, List.nodup_cons] at hnd
    by_cases hk : k' = i
    · subst hk
      have hrest : (rest.map Prod.snd).filter (fun t => t.id == k') = [] :=
        filter_values_eq_nil (fun q hq => hids q (List.mem_cons_of_mem _ hq))
          hnd.1
      simp [mapGet, List.filter_cons, hv', hrest]
    · have : (v'.id == i) = false := by simp [hv', hk]
      simp only [List.map_cons, List.filter_cons, this, Bool.false_eq_true,
        if_false, mapGet, if_neg hk]
      exact ih (fun q hq => hids q (List.mem_cons_of_mem _ hq)) hnd.2

theorem mapSet_of_not_mem {m : TxMap} {k : String} (h : k ∉ mapKeys m)
    (v : Transaction) : mapSet m k v = m ++ [(k, v)] := by
  induction m with
  | nil => simp [mapSet]
  | cons p rest ih =>
    obtain ⟨k', v'⟩ := p
    simp only [mapKeys, List.map_cons, List.mem_cons, not_or] at h
    have hk : ¬ k' = k := fun hh => h.1 hh.symm
    simp only [mapSet, if_neg hk, List.cons_append]
    rw [ih (by simpa [mapKeys] using h.2)]

theorem buildMap_loop_of_nodup {l : List Transaction} {m : TxMap}
    (hd : l.Pairwise fun a b => a.id ≠ b.id)
    (hdisj : ∀ t ∈ l, t.id ∉ mapKeys m) :
    l.foldl (fun m tx => mapSet m tx.id tx) m
      = m ++ l.map fun t => (t.id, t) := by
  induction l generalizing m with
  | nil => simp
  | cons tx rest ih =>
    simp only [List.foldl_cons, List.map_cons]
    rw [mapSet_of_not_mem (hdisj tx (by simp)) tx]
    rw [ih hd.of_cons ?_]
    · simp
    · intro t ht
      have hne : tx.id ≠ t.id := (List.pairwise_cons.mp hd).1 t ht
      have hm : t.id ∉ mapKeys m := hdisj t (List.mem_cons_of_mem _ ht)
      simp only [mapKeys, List.map_append, List.map_cons, List.map_nil,
        List.mem_append, List.mem_singleton, not_or]
      exact ⟨by simpa [mapKeys] using hm, fun hh => hne hh.symm⟩

theorem buildMap_of_nodup {l : List Transaction}
    (hd : l.Pairwise fun a b => a.id ≠ b.id) :
    buildMap l = l.map fun t => (t.id, t) := by
  have := buildMap_loop_of_nodup (m := []) hd (by simp [mapKeys])
  simpa [buildMap] using this

theorem mapSet_eq_self {m : TxMap} {k : String} {v : Transaction}
    (h : mapGet m k = some v) : mapSet m k v = m := by
  induction m with
  | nil => simp [mapGet] at h
  | cons p rest ih =>
    obtain ⟨k', v'⟩ := p
    by_cases hk : k' = k
    · subst hk
      simp only [mapGet, eq_self_iff_true, if_true, Option.some.injEq] at h
      subst h
      simp [mapSet]
    · simp only [mapGet, if_neg hk] at h
      simp only [mapSet, if_neg hk]
      rw [ih h]

theorem mapGet_map_pair {l : List Transaction}
    (hd : l.Pairwise fun a b => a.id ≠ b.id) {t : Transaction} (ht : t ∈ l) :
    mapGet (l.map fun t => (t.id, t)) t.id = some t := by
  induction l with
  | nil => simp at ht
  | cons a rest ih =>
    rcases List.mem_cons.mp ht with h | h
    · subst h
      simp [mapGet]
    · have hne : a.id ≠ t.id := (List.pairwise_cons.mp hd).1 t h
      simp only [List.map_cons, mapGet, if_neg hne]
      exact ih hd.of_cons h

theorem mergeInto_self {l : List Transaction} {m : TxMap}
    (h : ∀ tx ∈ l, mapGet m tx.id = some tx) : mergeInto m l = m := by
  induction l with
  | nil => rfl
  | cons tx rest ih =>
    have hstep : mergeStep m tx = m := by
      unfold mergeStep
      rw [h tx (by simp)]
      by_cases hj : jsGE tx.updatedAt tx.updatedAt = true
      · simp only [hj, if_true]
        exact mapSet_eq_self (h tx (by simp))
      · simp [hj]
    have hrw : mergeInto m (tx :: rest) = mergeInto (mergeStep m tx) rest := rfl
    rw [hrw, hstep]
    exact ih fun tx' h' => h tx' (List.mem_cons_of_mem _ h')

theorem filter_id_of_nodup {l : List Transaction}
    (h : l.Pairwise fun a b => a.id ≠ b.id) (i : String) :
    l.filter (fun t => t.id == i) = []
      ∨ ∃ a, l.filter (fun t => t.id == i) = [a] ∧ a ∈ l ∧ a.id = i := by
  induction l with
  | nil => exact Or.inl rfl
  | cons t rest ih =>
    by_cases ht : t.id = i
    · refine Or.inr ⟨t, ?_, by simp, ht⟩
      have hrest : rest.filter (fun t => t.id == i) = [] := by
        rw [List.filter_eq_nil_iff]
        intro b hb
        have hne : t.id ≠ b.id := (List.pairwise_cons.mp h).1 b hb
        simp only [beq_iff_eq]
        intro hbi
        exact hne (ht.trans hbi.symm)
      simp [List.filter_cons, ht, hrest]
    · have hb : (t.id == i) = false := by simp [ht]
      simp only [List.filter_cons, hb, Bool.false_eq_true, if_false]
      rcases ih h.of_cons with h0 | ⟨a, ha, hmem, hai⟩
      · exact Or.inl h0
      · exact Or.inr ⟨a, ha, List.mem_cons_of_mem _ hmem, hai⟩

/-! ## Pending-delete queue lemmas -/

theorem mem_addPendingDelete (cell : Option (List String)) (id j : String) :
    j ∈ getPendingDeletes (addPendingDelete cell id)
      ↔ j ∈ getPendingDeletes cell ∨ j = id := by
  simp only [addPendingDelete, getPendingDeletes]
  by_cases h : id ∈ cell.getD []
  · simp only [if_pos h]
    constructor
    · exact Or.inl
    · rintro (hj | rfl)
      · exact hj
      · exact h
  · simp [if_neg h]

theorem mem_foldl_addPendingDelete (l : List String)
    (cell : Option (List String)) (j : String) :
    j ∈ getPendingDeletes (l.foldl addPendingDelete cell)
      ↔ j ∈ getPendingDeletes cell ∨ j ∈ l := by
  induction l generalizing cell with
  | nil => simp
  | cons a rest ih =>
    simp only [List.foldl_cons, ih, mem_addPendingDelete, List.mem_cons]
    tauto

theorem nodup_addPendingDelete {cell : Option (List String)}
    (h : (getPendingDeletes cell).Nodup) (id : String) :
    (getPendingDeletes (addPendingDelete cell id)).Nodup := by
  unfold addPendingDelete
  by_cases hm : id ∈ getPendingDeletes cell
  · simpa [hm] using h
  · simp only [if_neg hm, getPendingDeletes, Option.getD_some]
    simp only [getPendingDeletes] at h hm
    simp [List.nodup_append, h, hm]

/-! ## Balance lemmas -/

theorem applyTxToBalance_eq (account : Account) (b : Int) (tx : Transaction) :
    applyTxToBalance account b tx = b + txEffect account tx := by
  unfold applyTxToBalance txEffect
  split_ifs <;> ring

theorem foldl_applyTxToBalance (account : Account) (l : List Transaction)
    (b : Int) :
    l.foldl (applyTxToBalance account) b = b + (l.map (txEffect account)).sum := by
  induction l generalizing b with
  | nil => simp
  | cons tx rest ih =>
    simp only [List.foldl_cons, List.map_cons, List.sum_cons, ih,
      applyTxToBalance_eq]
    ring

theorem sumAmounts_cons (t : Transaction) (l : List Transaction) :
    sumAmounts (t :: l) = t.amount + sumAmounts l := by
  simp [sumAmounts]

theorem sum_txEffect (account : Account) (l : List Transaction) :
    (l.map (txEffect account)).sum
      = sumAmounts (l.filter (isIncomeOf account))
        + sumAmounts (l.filter (isTransferInOf account))
        - sumAmounts (l.filter (isExpenseOf account))
        - sumAmounts (l.filter (isTransferOutOf account)) := by
  induction l with
  | nil => simp [sumAmounts]
  | cons tx rest ih =>
    simp only [List.map_cons, List.sum_cons, List.filter_cons]
    cases htype : tx.type with
    | expense =>
      by_cases hacc : tx.accountId = account.id
      · simp only [txEffect, htype, hacc, isExpenseOf, isIncomeOf,
          isTransferInOf, isTransferOutOf, and_true, true_and, and_false]
        simp [sumAmounts_cons, ih]
        ring
      · simp only [txEffect, htype, hacc, isExpenseOf, isIncomeOf,
          isTransferInOf, isTransferOutOf, and_false, false_and]
        simp [ih]
    | income =>
      by_cases hacc : tx.accountId = account.id
      · simp only [txEffect, htype, hacc, isExpenseOf, isIncomeOf,
          isTransferInOf, isTransferOutOf, and_true, true_and, and_false]
        simp [sumAmounts_cons, ih]
        ring
      · simp only [txEffect, htype, hacc, isExpenseOf, isIncomeOf,
          isTransferInOf, isTransferOutOf, and_false, false_and]
        simp [ih]
    | transfer =>
      by_cases hfrom : tx.accountId = account.id <;>
        by_cases hto : tx.toAccountId = some account.id <;>
        · simp only [txEffect, htype, hfrom, hto, isExpenseOf, isIncomeOf,
            isTransferInOf, isTransferOutOf, and_true, true_and, and_false,
            false_and]
          simp [sumAmounts_cons, ih]
          try ring

/-- Merging two singleton lists over the same id reduces to one
last-writer-wins comparison. -/
theorem mergeTransactions_singleton_same_id (a b : Transaction)
    (hid : b.id = a.id) :
    mergeTransactions [a] [b]
      = if jsGE b.updatedAt a.updatedAt then [b] else [a] := by
  have hbuild : buildMap [a] = [(a.id, a)] := rfl
  have hget : mapGet [(a.id, a)] b.id = some a := by
    simp [mapGet, hid]
  unfold mergeTransactions mergeInto
  simp only [hbuild, List.foldl_cons, List.foldl_nil, mergeStep, hget]
  by_cases hj : jsGE b.updatedAt a.updatedAt = true
  · simp [hj, mapSet, hid]
  · simp [hj]

/-! ## Claims -/

/-- C3.  Last-writer-wins: for two records `r`, `r'` sharing an id with
timestamps `T1 < T2`, merging the two singleton lists yields exactly the
record carrying `T2`, whichever of the two lists is passed as local and
which as remote. -/
theorem merge_last_writer_wins (r r' : Transaction) (T1 T2 : String)
    (hid : r.id = r'.id) (h1 : r.updatedAt = some T1)
    (h2 : r'.updatedAt = some T2) (hlt : T1 < T2) :
    mergeTransactions [r] [r'] = [r'] ∧ mergeTransactions [r'] [r] = [r'] := by
  have h12 : jsGE r'.updatedAt r.updatedAt = true := by
    rw [h1, h2, jsGE_some_some]
    exact decide_eq_true (le_of_lt hlt)
  have h21 : jsGE r.updatedAt r'.updatedAt = false := by
    rw [h1, h2, jsGE_some_some]
    exact decide_eq_false (not_le.mpr hlt)
  constructor
  · rw [mergeTransactions_singleton_same_id r r' hid.symm, h12, if_pos rfl]
  · rw [mergeTransactions_singleton_same_id r' r hid, h21]
    simp

/-- Witness for C3 at `T1 = "2024-01-01" < T2 = "2024-01-02"`. -/
theorem merge_last_writer_wins_witness :
    mergeTransactions
        [{ id := "t1", type := TransactionType.expense, amount := 50,
           updatedAt := some "2024-01-01" }]
        [{ id := "t1", type := TransactionType.expense, amount := 75,
           updatedAt := some "2024-01-02" }]
      = [{ id := "t1", type := TransactionType.expense, amount := 75,
           updatedAt := some "2024-01-02" }] :=
  (merge_last_writer_wins
    { id := "t1", type := TransactionType.expense, amount := 50,
      updatedAt := some "2024-01-01" }
    { id := "t1", type := TransactionType.expense, amount := 75,
      updatedAt := some "2024-01-02" }
    "2024-01-01" "2024-01-02" rfl rfl rfl
    (by rw [String.lt_iff_toList_lt]; decide)).1

/-- C4.  Remote wins on an exact timestamp tie: when each input holds
exactly one record with id `i` and the two carry the same timestamp, the
merged output's sole record with id `i` is the remote one. -/
theorem merge_remote_wins_on_tie (localTx remote : List Transaction)
    (i : String) (x y : Transaction) (T : String)
    (hl : localTx.filter (fun t => t.id == i) = [x])
    (hr : remote.filter (fun t => t.id == i) = [y])
    (hx : x.updatedAt = some T) (hy : y.updatedAt = some T) :
    (mergeTransactions localTx remote).filter (fun t => t.id == i) = [y] := by
  have hwf : MapWF (mergeInto (buildMap localTx) remote) :=
    mapWF_mergeInto remote (mapWF_buildMap localTx)
  have hget : mapGet (mergeInto (buildMap localTx) remote) i = some y := by
    rw [mapGet_mergeInto, mapGet_buildMap, hl, hr]
    simp only [List.foldl_cons, List.foldl_nil, resolve]
    rw [hx, hy, jsGE_some_some]
    simp
  rw [mergeTransactions, filter_values_eq hwf i, hget]
  rfl

/-- Witness for C4: two same-id records with the colliding timestamp
`"2026-03-05T10:00:00Z"` but different amounts. -/
theorem merge_remote_wins_on_tie_witness :
    (mergeTransactions
        [{ id := "t1", type := TransactionType.expense, amount := 50,
           updatedAt := some "2026-03-05T10:00:00Z" }]
        [{ id := "t1", type := TransactionType.expense, amount := 75,
           updatedAt := some "2026-03-05T10:00:00Z" }]).filter
        (fun t => t.id == "t1")
      = [{ id := "t1", type := TransactionType.expense, amount := 75,
           updatedAt := some "2026-03-05T10:00:00Z" }] :=
  merge_remote_wins_on_tie _ _ "t1"
    { id := "t1", type := TransactionType.expense, amount := 50,
      updatedAt := some "2026-03-05T10:00:00Z" }
    { id := "t1", type := TransactionType.expense, amount := 75,
      updatedAt := some "2026-03-05T10:00:00Z" }
    "2026-03-05T10:00:00Z" (by decide) (by decide) rfl rfl

/-- C5 counterexample: for `L = [dupNew, dupOld]` (a duplicated id inside
one list), `mergeTransactions L L` is `[dupNew]`, so the record `dupOld`
and its field values (amount 3) are present in `L` but absent from the
merged output — `merge(L, L)` does not preserve the field values per id of
every list `L`. -/
theorem merge_idempotence_cex :
    mergeTransactions [dupNew, dupOld] [dupNew, dupOld] = [dupNew]
    ∧ dupOld ∈ [dupNew, dupOld]
    ∧ dupOld ∉ mergeTransactions [dupNew, dupOld] [dupNew, dupOld] := by
  decide

/-- C5 amended: for every list `L` whose records have pairwise-distinct
ids — the invariant every store produced by the code maintains —
`mergeTransactions L L` is exactly `L`, same ids and same field values per
id (indeed the very same list). -/
theorem merge_idempotent_of_nodup_ids (L : List Transaction)
    (h : L.Pairwise fun a b => a.id ≠ b.id) : mergeTransactions L L = L := by
  unfold mergeTransactions
  rw [buildMap_of_nodup h, mergeInto_self fun tx htx => mapGet_map_pair h htx]
  simp [Function.comp_def]

/-- Witness for the amended C5 on a two-record list with distinct ids. -/
theorem merge_idempotent_of_nodup_ids_witness :
    mergeTransactions
        [{ id := "a", type := TransactionType.expense, amount := 5,
           updatedAt := some "2" },
         { id := "b", type := TransactionType.income, amount := 3,
           updatedAt := some "1" }]
        [{ id := "a", type := TransactionType.expense, amount := 5,
           updatedAt := some "2" },
         { id := "b", type := TransactionType.income, amount := 3,
           updatedAt := some "1" }]
      = [{ id := "a", type := TransactionType.expense, amount := 5,
           updatedAt := some "2" },
         { id := "b", type := TransactionType.income, amount := 3,
           updatedAt := some "1" }] :=
  merge_idempotent_of_nodup_ids _ (by decide)

/-- C6 counterexample: with `A = [tsThree, tsOne]` (a duplicated id inside
one list) and `B = [tsTwo]`, no same-id pair across the two lists has
equal timestamps, yet `merge(A, B)` keeps `tsTwo` while `merge(B, A)`
keeps `tsThree` — the final record for id `"a"` differs between the two
call orders. -/
theorem merge_commutativity_cex :
    (∀ a ∈ [tsThree, tsOne], ∀ b ∈ [tsTwo], a.id = b.id →
        a.updatedAt.isSome = true ∧ b.updatedAt.isSome = true
          ∧ a.updatedAt ≠ b.updatedAt)
    ∧ (mergeTransactions [tsThree, tsOne] [tsTwo]).filter (fun t => t.id == "a")
        ≠ (mergeTransactions [tsTwo] [tsThree, tsOne]).filter
            (fun t => t.id == "a") := by
  decide

/-- C6 amended: when each argument's records carry pairwise-distinct ids
(the invariant every store produced by the code maintains) and every
same-id pair across the two lists carries present and unequal timestamps,
`merge(A, B)` and `merge(B, A)` contain identical final records for every
id. -/
theorem merge_comm_of_nodup_ids (A B : List Transaction)
    (hA : A.Pairwise fun a b => a.id ≠ b.id)
    (hB : B.Pairwise fun a b => a.id ≠ b.id)
    (hcross : ∀ a ∈ A, ∀ b ∈ B, a.id = b.id →
      a.updatedAt.isSome = true ∧ b.updatedAt.isSome = true
        ∧ a.updatedAt ≠ b.updatedAt) :
    ∀ i, (mergeTransactions A B).filter (fun t => t.id == i)
      = (mergeTransactions B A).filter (fun t => t.id == i) := by
  intro i
  have hwfAB : MapWF (mergeInto (buildMap A) B) :=
    mapWF_mergeInto B (mapWF_buildMap A)
  have hwfBA : MapWF (mergeInto (buildMap B) A) :=
    mapWF_mergeInto A (mapWF_buildMap B)
  rw [mergeTransactions, mergeTransactions, filter_values_eq hwfAB i,
    filter_values_eq hwfBA i]
  have hgoal : mapGet (mergeInto (buildMap A) B) i
      = mapGet (mergeInto (buildMap B) A) i := by
    rw [mapGet_mergeInto, mapGet_mergeInto, mapGet_buildMap, mapGet_buildMap]
    rcases filter_id_of_nodup hA i with hA0 | ⟨a, hAa, haMem, haId⟩ <;>
      rcases filter_id_of_nodup hB i with hB0 | ⟨b, hBb, hbMem, hbId⟩
    · rw [hA0, hB0]
    · rw [hA0, hBb]
      simp [resolve]
    · rw [hAa, hB0]
      simp [resolve]
    · rw [hAa, hBb]
      simp only [List.foldl_cons, List.foldl_nil, resolve]
      obtain ⟨hsa, hsb, hne⟩ := hcross a haMem b hbMem (haId.trans hbId.symm)
      obtain ⟨Ta, hTa⟩ := Option.isSome_iff_exists.mp hsa
      obtain ⟨Tb, hTb⟩ := Option.isSome_iff_exists.mp hsb
      rw [hTa, hTb, jsGE_some_some, jsGE_some_some]
      have hne' : Ta ≠ Tb := by
        intro hh
        exact hne (by rw [hTa, hTb, hh])
      rcases hne'.lt_or_lt with hlt | hlt
      · rw [decide_eq_true (le_of_lt hlt), decide_eq_false (not_le.mpr hlt)]
        simp
      · rw [decide_eq_true (le_of_lt hlt), decide_eq_false (not_le.mpr hlt)]
        simp
  rw [hgoal]

/-- Witness for the amended C6: singleton lists with distinct present
timestamps, compared at id `"a"`. -/
theorem merge_comm_of_nodup_ids_witness :
    (mergeTransactions [tsOne] [tsTwo]).filter (fun t => t.id == "a")
      = (mergeTransactions [tsTwo] [tsOne]).filter (fun t => t.id == "a") :=
  merge_comm_of_nodup_ids [tsOne] [tsTwo] (by decide) (by decide) (by decide)
    "a"

/-- C7 counterexample: with the timestampless record as the local argument
and the timestamped record as the remote argument, the merged output keeps
the timestampless record and the record with the timestamp is absent — a
record lacking a comparable timestamp is not always treated as older than
one that has one. -/
theorem merge_missing_timestamp_cex :
    noStamp.updatedAt = none ∧ withStamp.updatedAt = some "2024"
    ∧ noStamp.id = withStamp.id
    ∧ mergeTransactions [noStamp] [withStamp] = [noStamp]
    ∧ withStamp ∉ mergeTransactions [noStamp] [withStamp] := by
  decide

/-- C7 amended: `mergeTransactions` is total (never crashes) on duplicate
ids and missing timestamps, but every comparison against a missing
timestamp is false, so for two same-id records of which exactly one
carries a timestamp the LOCAL (first-argument) record always survives:
the timestamped record wins only when it is the local one. -/
theorem merge_missing_timestamp_local_wins (x y : Transaction) (T : String)
    (hid : x.id = y.id) (hx : x.updatedAt = some T) (hy : y.updatedAt = none) :
    mergeTransactions [x] [y] = [x] ∧ mergeTransactions [y] [x] = [y] := by
  constructor
  · rw [mergeTransactions_singleton_same_id x y hid.symm, hy, hx]
    simp [jsGE]
  · rw [mergeTransactions_singleton_same_id y x hid, hx, hy]
    simp [jsGE]

/-- Witness for the amended C7 at the concrete records `withStamp` /
`noStamp`. -/
theorem merge_missing_timestamp_local_wins_witness :
    mergeTransactions [withStamp] [noStamp] = [withStamp]
    ∧ mergeTransactions [noStamp] [withStamp] = [noStamp] :=
  merge_missing_timestamp_local_wins withStamp noStamp "2024" rfl rfl rfl

/-- C1.  In a sync pass with a non-empty pending-delete queue, the batch
remote delete is attempted for exactly the queued ids, and the queue is
cleared iff that call resolves: on success the stored queue is empty
afterwards; on rejection the whole local state (hence every queued id) is
untouched and neither the pull nor the persist step of that pass runs. -/
theorem performSync_flush_deletes (env : SyncEnv) (s : LocalState)
    (hq : getPendingDeletes s.pendingDeletes ≠ []) :
    (performSync env false s).batchDeleteAttempted
        = some (getPendingDeletes s.pendingDeletes)
    ∧ (env.batchDeleteOk = true →
        getPendingDeletes (performSync env false s).state.pendingDeletes = [])
    ∧ (env.batchDeleteOk = false →
        (performSync env false s).state = s
        ∧ (performSync env false s).pulled = false
        ∧ (performSync env false s).persisted = false) := by
  have hlen : 0 < (s.pendingDeletes.getD []).length := by
    rw [List.length_pos]
    simpa [getPendingDeletes] using hq
  cases henv : env.batchDeleteOk <;>
    simp [performSync, hlen, henv, clearPendingDeletes, getPendingDeletes]

/-- Witness for C1: a pass whose batch delete rejects leaves `wState`
untouched and skips pull and persist. -/
theorem performSync_flush_deletes_witness :
    getPendingDeletes wState.pendingDeletes ≠ []
    ∧ (performSync ⟨false, []⟩ false wState).batchDeleteAttempted
        = some (getPendingDeletes wState.pendingDeletes)
    ∧ ((performSync ⟨false, []⟩ false wState).state = wState
        ∧ (performSync ⟨false, []⟩ false wState).pulled = false
        ∧ (performSync ⟨false, []⟩ false wState).persisted = false) :=
  ⟨by decide,
    (performSync_flush_deletes ⟨false, []⟩ wState (by decide)).1,
    (performSync_flush_deletes ⟨false, []⟩ wState (by decide)).2.2 rfl⟩

/-- C2.  With an owner id known, `removeTransaction` enqueues the id into
the pending-delete queue before issuing the live remote delete (the first
three events, in order); if the live delete rejects the id is still
queued afterwards, and if it resolves the id is gone from the queue while
exactly the other queued ids remain. -/
theorem removeTransaction_pending_delete (u : String) (deleteOk : Bool)
    (id : String) (s : LocalState) :
    (removeTransaction (some u) deleteOk id s).2.take 3
        = [Ev.localDelete id, Ev.enqueuePending id, Ev.callRemoteDelete id]
    ∧ (deleteOk = false →
        id ∈ getPendingDeletes
          (removeTransaction (some u) deleteOk id s).1.pendingDeletes)
    ∧ (deleteOk = true → ∀ j,
        j ∈ getPendingDeletes
            (removeTransaction (some u) deleteOk id s).1.pendingDeletes
          ↔ j ∈ getPendingDeletes s.pendingDeletes ∧ j ≠ id) := by
  cases deleteOk with
  | false =>
    refine ⟨rfl, fun _ => ?_, fun h => by simp at h⟩
    rw [show (removeTransaction (some u) false id s).1.pendingDeletes
        = addPendingDelete s.pendingDeletes id from rfl]
    rw [mem_addPendingDelete]
    exact Or.inr rfl
  | true =>
    refine ⟨rfl, fun h => by simp at h, fun _ j => ?_⟩
    rw [show (removeTransaction (some u) true id s).1.pendingDeletes
        = ((getPendingDeletes (addPendingDelete s.pendingDeletes id)).filter
            (fun i => i != id)).foldl addPendingDelete
            (clearPendingDeletes (addPendingDelete s.pendingDeletes id))
      from rfl]
    rw [mem_foldl_addPendingDelete]
    simp only [clearPendingDeletes, getPendingDeletes, Option.getD_none,
      List.not_mem_nil, false_or, List.mem_filter, bne_iff_ne]
    rw [show (addPendingDelete s.pendingDeletes id).getD []
        = getPendingDeletes (addPendingDelete s.pendingDeletes id) from rfl,
      mem_addPendingDelete]
    constructor
    · rintro ⟨hj | rfl, hne⟩
      · exact ⟨hj, hne⟩
      · exact absurd rfl hne
    · rintro ⟨hj, hne⟩
      exact ⟨Or.inl hj, hne⟩

/-- Witness for C2: removing `"t5"` from `wState` with the live delete
failing leaves `"t5"` queued; with it succeeding, the queue keeps exactly
the other id `"t2"`. -/
theorem removeTransaction_pending_delete_witness :
    (removeTransaction (some "owner") false "t5" wState).2.take 3
        = [Ev.localDelete "t5", Ev.enqueuePending "t5",
           Ev.callRemoteDelete "t5"]
    ∧ "t5" ∈ getPendingDeletes
        (removeTransaction (some "owner") false "t5" wState).1.pendingDeletes
    ∧ ("t2" ∈ getPendingDeletes
          (removeTransaction (some "owner") true "t5" wState).1.pendingDeletes
        ↔ "t2" ∈ getPendingDeletes wState.pendingDeletes ∧ "t2" ≠ "t5") :=
  ⟨(removeTransaction_pending_delete "owner" false "t5" wState).1,
    (removeTransaction_pending_delete "owner" false "t5" wState).2.1 rfl,
    (removeTransaction_pending_delete "owner" true "t5" wState).2.2 rfl "t2"⟩

/-- C8.  Guest-mode safety: with no owner id, any sequence of mutation
entry point calls leaves the pending-delete queue untouched and issues no
Remote Transport call. -/
theorem guest_mode_safety (ops : List MutOp) (s : LocalState) :
    (applyOps none s ops).1.pendingDeletes = s.pendingDeletes
    ∧ ((applyOps none s ops).2.all fun e => !isRemoteCall e) = true := by
  induction ops generalizing s with
  | nil => exact ⟨rfl, rfl⟩
  | cons op rest ih =>
    obtain ⟨h1, h2⟩ := ih (applyOp none s op).1
    have hqueue : (applyOp none s op).1.pendingDeletes = s.pendingDeletes := by
      cases op with
      | addT tx => rfl
      | updateT tx => rfl
      | removeT id ok => rfl
    have hloc : ((applyOp none s op).2.all fun e => !isRemoteCall e) = true := by
      cases op with
      | addT tx => rfl
      | updateT tx => rfl
      | removeT id ok => rfl
    refine ⟨?_, ?_⟩
    · show (applyOps none (applyOp none s op).1 rest).1.pendingDeletes
        = s.pendingDeletes
      rw [h1, hqueue]
    · show (((applyOp none s op).2
          ++ (applyOps none (applyOp none s op).1 rest).2).all
          fun e => !isRemoteCall e) = true
      rw [List.all_append, hloc, h2]
      rfl

/-- C9.  The computed balance equals the initial balance plus incoming
amounts (income; transfer-in) minus outgoing amounts (expense;
transfer-out), and is invariant under permutation of the transaction
list. -/
theorem computeAccountBalance_formula (account : Account)
    (txs txs' : List Transaction) (hperm : txs.Perm txs') :
    computeAccountBalance account txs
        = account.initialBalance
          + sumAmounts (txs.filter (isIncomeOf account))
          + sumAmounts (txs.filter (isTransferInOf account))
          - sumAmounts (txs.filter (isExpenseOf account))
          - sumAmounts (txs.filter (isTransferOutOf account))
    ∧ computeAccountBalance account txs' = computeAccountBalance account txs := by
  have key : ∀ l : List Transaction, computeAccountBalance account l
      = account.initialBalance + (l.map (txEffect account)).sum :=
    fun l => foldl_applyTxToBalance account l account.initialBalance
  constructor
  · rw [key, sum_txEffect]
    ring
  · rw [key, key, (hperm.map (txEffect account)).sum_eq]

/-- Witness for C9: scenario 4 computes 570, and reversing the list does
not change the computed balance. -/
theorem computeAccountBalance_formula_witness :
    computeAccountBalance accCash scenarioTxs = 570
    ∧ computeAccountBalance accCash scenarioTxs.reverse
        = computeAccountBalance accCash scenarioTxs :=
  ⟨by decide,
    (computeAccountBalance_formula accCash scenarioTxs scenarioTxs.reverse
      (by decide)).2⟩

/-- C10.  The stored pending-delete queue never holds duplicate ids:
adding an id that is already stored is a no-op on the stored cell, adding
any id preserves distinctness of the stored ids, and clearing yields a
distinct (empty) set; reading does not write. -/
theorem pending_delete_queue_nodup (cell : Option (List String))
    (id j : String) (hmem : id ∈ getPendingDeletes cell)
    (hnd : (getPendingDeletes cell).Nodup) :
    addPendingDelete cell id = cell
    ∧ (getPendingDeletes (addPendingDelete cell j)).Nodup
    ∧ (getPendingDeletes (clearPendingDeletes cell)).Nodup := by
  refine ⟨?_, nodup_addPendingDelete hnd j, by simp [clearPendingDeletes,
    getPendingDeletes]⟩
  unfold addPendingDelete
  simp [hmem]

/-- Witness for C10 at the stored queue `["t2", "t3"]` and `id = "t2"`. -/
theorem pending_delete_queue_nodup_witness :
    addPendingDelete (some ["t2", "t3"]) "t2" = some ["t2", "t3"]
    ∧ (getPendingDeletes (addPendingDelete (some ["t2", "t3"]) "t4")).Nodup
    ∧ (getPendingDeletes (clearPendingDeletes (some ["t2", "t3"]))).Nodup :=
  pending_delete_queue_nodup (some ["t2", "t3"]) "t2" "t4" (by decide)
    (by decide)

end Xpens
